import Mathlib

/-!
Verification of the Coylendar core (astro.js, calendarDate.js, app.js).

The JavaScript sources are embedded shallowly:

* JS number arithmetic is modelled as exact real (or, where the source only
  ever manipulates rationals, rational) arithmetic.  Math.trunc, Math.floor,
  Math.sign and the toward-zero float remainder are embedded explicitly
  (jstrunc, jssign, jsfmod360) so that the rounding mode of the source is
  preserved.
* The unbounded do-while Newton loop of Astro.sunPosition is embedded with an
  explicit fuel parameter returning Option; none marks the fuel running out,
  which in the source corresponds to the loop still running.
* The calendarDate/app layers consume the Astro classifiers only through their
  values at day or instant granularity, so those layers are embedded as
  functions parameterised by the classifier maps (day index or millisecond
  instant to season or lunar-phase value); the layout and boundary logic
  itself is translated line by line from the source.
-/

set_option maxHeartbeats 1000000

/-- Math.trunc on a real number: rounds toward zero. -/
noncomputable def jstrunc (x : ℝ) : ℤ := if x < 0 then -⌊-x⌋ else ⌊x⌋

/-- Math.trunc on a rational (the civil-to-Julian day-count arithmetic of
epoch2000Date is all-rational, so it is embedded over the rationals). -/
def jstruncQ (q : ℚ) : ℤ := if q < 0 then -⌊-q⌋ else ⌊q⌋

/-- Math.sign on a real number. -/
noncomputable def jssign (x : ℝ) : ℝ := if x < 0 then -1 else if 0 < x then 1 else 0

namespace Astro

/-- const RADS = Math.PI / 180. -/
noncomputable def RADS : ℝ := Real.pi / 180

/-- const TPI = Math.PI * 2. -/
noncomputable def TPI : ℝ := Real.pi * 2

/-- const SMALL_FLOAT = 1e-12. -/
noncomputable def SMALL_FLOAT : ℝ := 1e-12

/-- The civil fields read off a JS Date: year, 1-based month (the source reads
getMonth() + 1 before using it), day of month, hour, minute, and the timezone
offset in minutes as returned by getTimezoneOffset (positive west of UTC). -/
structure JSDate where
  year : ℤ
  month : ℤ
  day : ℤ
  hour : ℤ
  minute : ℤ
  tzOffset : ℤ

/-- Astro.epoch2000Date: fractional days since 2000-01-01 12:00 UTC.  The
j_day formula and the offset corrections are exact rational arithmetic in the
source (a, b, c are the three Math.trunc subexpressions of j_day). -/
def epoch2000Date (dt : JSDate) : ℚ :=
  let a : ℤ := jstruncQ (((dt.month : ℚ) + 9) / 12)
  let b : ℤ := jstruncQ ((7 * ((dt.year : ℚ) + (a : ℚ))) / 4)
  let c : ℤ := jstruncQ ((275 * (dt.month : ℚ)) / 9)
  let jDay : ℤ := 367 * dt.year - b + c + dt.day
  (jDay : ℚ) - 730531.5 + (dt.hour : ℚ) / 24 + (dt.minute : ℚ) / (24 * 60)
    + (dt.tzOffset : ℚ) / (24 * 60)

/-- Astro.range: normalize an angle in radians to [0, 2 pi).  The source also
computes a local variable norm that it never uses; that dead assignment is
omitted here. -/
noncomputable def range (x : ℝ) : ℝ :=
  let b := x / TPI
  let a := TPI * (b - jssign b * ⌊|b|⌋)
  if a < 0 then TPI + a else a

/-- Astro.sun: ecliptic longitude of the sun (radians) from a J2000 day. -/
noncomputable def sun (day : ℝ) : ℝ :=
  let longitude := range (280.461 * RADS + 0.9856474 * RADS * day)
  let g := range (357.528 * RADS + 0.9856003 * RADS * day)
  range (longitude + 1.915 * RADS * Real.sin g + 0.02 * RADS * Real.sin (2 * g))

/-- Astro.sunAngle: sun longitude for a civil date. -/
noncomputable def sunAngle (dt : JSDate) : ℝ := sun ((epoch2000Date dt : ℚ) : ℝ)

/-- Astro.season: 0 = spring .. 3 = winter. -/
noncomputable def season (dt : JSDate) : ℤ := jstrunc (sunAngle dt / TPI * 4)

/-- Astro.sign: 0 = Aries .. 11 = Pisces. -/
noncomputable def sign (dt : JSDate) : ℤ := jstrunc (sunAngle dt / TPI * 12)

end Astro

/-! ## Basic facts about the embedded JS primitives -/

theorem jstrunc_of_nonneg {x : ℝ} (h : 0 ≤ x) : jstrunc x = ⌊x⌋ := by
  unfold jstrunc
  rw [if_neg (not_lt.mpr h)]

theorem jstrunc_of_neg {x : ℝ} (h : x < 0) : jstrunc x = -⌊-x⌋ := by
  unfold jstrunc
  rw [if_pos h]

theorem tpi_pos : (0 : ℝ) < Astro.TPI := by
  unfold Astro.TPI
  positivity

/-- The normalization function computes exactly TPI times the fractional part
of the number of turns. -/
theorem range_eq (x : ℝ) : Astro.range x = Astro.TPI * Int.fract (x / Astro.TPI) := by
  have hT := tpi_pos
  simp only [Astro.range, jssign]
  set u := x / Astro.TPI with hu
  rcases lt_trichotomy u 0 with h | h | h
  · rw [if_pos h, abs_of_neg h]
    have hfl : ((⌊-u⌋ : ℤ) : ℝ) = -u - Int.fract (-u) := by
      rw [Int.self_sub_fract]
    rw [hfl]
    have key : u - (-1 : ℝ) * (-u - Int.fract (-u)) = -Int.fract (-u) := by ring
    rw [key]
    rcases eq_or_ne (Int.fract (-u)) 0 with hf | hf
    · have hzero : Int.fract u = 0 := by
        have hcast : u = ((-⌊-u⌋ : ℤ) : ℝ) := by
          have h2 : ((⌊-u⌋ : ℤ) : ℝ) = -u := by rw [hfl, hf]; ring
          push_cast
          push_cast at h2
          linarith
        rw [hcast, Int.fract_intCast]
      rw [hf, hzero]
      norm_num
    · have hfpos : 0 < Int.fract (-u) := lt_of_le_of_ne (Int.fract_nonneg _) (Ne.symm hf)
      rw [if_pos (by nlinarith : Astro.TPI * -Int.fract (-u) < 0)]
      have hufr : Int.fract u = 1 - Int.fract (-u) := by
        have hn := Int.fract_neg (x := -u) hf
        simpa using hn
      rw [hufr]; ring
  · rw [h]
    norm_num
  · rw [if_neg (not_lt.mpr h.le), if_pos h, abs_of_pos h]
    have hfr : u - (1 : ℝ) * ((⌊u⌋ : ℤ) : ℝ) = Int.fract u := by
      unfold Int.fract; ring
    rw [hfr]
    rw [if_neg (not_lt.mpr (mul_nonneg hT.le (Int.fract_nonneg u)))]

/-- Range membership: normalization lands in [0, TPI). -/
theorem range_mem (x : ℝ) : 0 ≤ Astro.range x ∧ Astro.range x < Astro.TPI := by
  have hT := tpi_pos
  rw [range_eq]
  constructor
  · exact mul_nonneg hT.le (Int.fract_nonneg _)
  · have h1 := Int.fract_lt_one (x / Astro.TPI)
    nlinarith

theorem sun_mem (d : ℝ) : 0 ≤ Astro.sun d ∧ Astro.sun d < Astro.TPI := by
  simp only [Astro.sun]
  exact range_mem _

/-! ## C8: range (normalizeAngle) properties -/

/-- C8: normalizeAngle (range) maps any real angle into [0, 2 pi), sends
-pi/2 to 3 pi/2, and is periodic with period 2 pi: range (x + 2 pi k) =
range x for every integer k and real x. -/
theorem c8_normalizeAngle :
    (∀ x : ℝ, 0 ≤ Astro.range x ∧ Astro.range x < Astro.TPI)
      ∧ Astro.range (-(Real.pi / 2)) = 3 * Real.pi / 2
      ∧ ∀ (x : ℝ) (k : ℤ), Astro.range (x + Astro.TPI * k) = Astro.range x := by
  refine ⟨range_mem, ?_, ?_⟩
  · rw [range_eq]
    have hpi := Real.pi_ne_zero
    have harg : -(Real.pi / 2) / Astro.TPI = -(1 / 4 : ℝ) := by
      unfold Astro.TPI
      field_simp
      ring
    rw [harg]
    have hfr : Int.fract (-(1 / 4 : ℝ)) = 3 / 4 := by
      norm_num [Int.fract]
    rw [hfr]
    unfold Astro.TPI
    ring
  · intro x k
    rw [range_eq, range_eq]
    have hT := tpi_pos
    have harg : (x + Astro.TPI * k) / Astro.TPI = x / Astro.TPI + k := by
      field_simp
      ring
    rw [harg, Int.fract_add_int]

/-! ## C9: epoch2000Date at the J2000 epoch -/

/-- C9: epoch2000Date evaluated at civil instant 2000-01-01 12:00 with UTC
offset 0 minutes returns exactly 0: the civil-to-Julian formula, the
-730531.5 shift and the offset correction cancel exactly at the epoch. -/
theorem c9_epoch2000_at_j2000 :
    Astro.epoch2000Date ⟨2000, 1, 1, 12, 0, 0⟩ = 0 := by
  unfold Astro.epoch2000Date jstruncQ
  norm_num

/-! ## C5: a season change is always a sign change -/

theorem sign_floor_form (dt : Astro.JSDate) :
    Astro.sign dt = ⌊Astro.sunAngle dt / Astro.TPI * 12⌋ := by
  have h := (sun_mem ((Astro.epoch2000Date dt : ℚ) : ℝ)).1
  unfold Astro.sign
  exact jstrunc_of_nonneg (by
    have hT := tpi_pos
    have : 0 ≤ Astro.sunAngle dt := h
    positivity)

theorem season_floor_form (dt : Astro.JSDate) :
    Astro.season dt = ⌊Astro.sunAngle dt / Astro.TPI * 4⌋ := by
  have h := (sun_mem ((Astro.epoch2000Date dt : ℚ) : ℝ)).1
  unfold Astro.season
  exact jstrunc_of_nonneg (by
    have hT := tpi_pos
    have : 0 ≤ Astro.sunAngle dt := h
    positivity)

/-- The season index is determined by the sign index: season = floor (sign/3).
Both are floors of the same normalized longitude, over 4 and 12 sectors. -/
theorem season_eq_of_sign (dt : Astro.JSDate) :
    Astro.season dt = ⌊((Astro.sign dt : ℤ) : ℝ) / 3⌋ := by
  have hT := tpi_pos
  have hs := sun_mem ((Astro.epoch2000Date dt : ℚ) : ℝ)
  rw [sign_floor_form, season_floor_form]
  set u := Astro.sunAngle dt / Astro.TPI with hu
  have hu0 : 0 ≤ u := div_nonneg hs.1 hT.le
  have hu1 : u < 1 := (div_lt_one hT).mpr hs.2
  set s : ℤ := ⌊u * 12⌋ with hsdef
  have hsl : (s : ℝ) ≤ u * 12 := Int.floor_le _
  have hsr : u * 12 < (s : ℝ) + 1 := Int.lt_floor_add_one _
  have hdiv : 3 * ⌊(s : ℝ) / 3⌋ ≥ s - 2 := by
    have h1 : (s : ℝ) / 3 - 1 < (⌊(s : ℝ) / 3⌋ : ℤ) := Int.sub_one_lt_floor _
    have h2 : (s : ℝ) - 3 < 3 * (⌊(s : ℝ) / 3⌋ : ℤ) := by linarith
    have h3 : (s : ℤ) - 3 < 3 * ⌊(s : ℝ) / 3⌋ := by exact_mod_cast h2
    omega
  have hdivR : (3 : ℝ) * (⌊(s : ℝ) / 3⌋ : ℤ) ≥ (s : ℝ) - 2 := by exact_mod_cast hdiv
  rw [Int.floor_eq_iff]
  constructor
  · have h1 : ((⌊(s : ℝ) / 3⌋ : ℤ) : ℝ) ≤ (s : ℝ) / 3 := Int.floor_le _
    linarith
  · linarith

/-- C5: for any two civil dates (in particular consecutive days of one
season layout), differing season indices force differing sign indices:
season same or sign different.  Classically this is the statement that a
season change between consecutive days implies a signEnd change. -/
theorem c5_season_change_implies_sign_change :
    ∀ dt1 dt2 : Astro.JSDate,
      Astro.season dt1 = Astro.season dt2 ∨ Astro.sign dt1 ≠ Astro.sign dt2 := by
  intro dt1 dt2
  by_cases h : Astro.sign dt1 = Astro.sign dt2
  · left
    rw [season_eq_of_sign, season_eq_of_sign, h]
  · right
    exact h

/-! ## The precise sun/moon model (Astro.julian, sunPosition, moonPosition,
moonPhase_, phase, moonPhase) -/

namespace Astro

/-- Astro.julian: Julian Day Number with the Gregorian switch at 1582-10-15.
The caller moonPhase_ passes a fractional, shifted day value, so the day
parameter is a real number, exactly as in JS. -/
noncomputable def julian (y m : ℤ) (day : ℝ) : ℝ :=
  let year : ℤ := if m < 3 then y - 1 else y
  let month : ℤ := if m < 3 then m + 12 else m
  let a : ℤ := jstrunc ((year : ℝ) / 100)
  let b : ℤ :=
    if 1582 < year ∨ (year = 1582 ∧ 10 < month) ∨ (year = 1582 ∧ month = 10 ∧ 15 < day)
    then 2 - a + jstrunc ((a : ℝ) / 4) else 0
  let c : ℤ := jstrunc (365.25 * (year : ℝ))
  let e : ℤ := jstrunc (30.6001 * ((month : ℝ) + 1))
  ((b : ℝ) + (c : ℝ) + (e : ℝ)) + day + 1720994.5

/-- The reduction idiom i = Math.trunc(l / 360); l = l - i * 360 of the
source, which is also exactly the JS remainder l % 360.0 (toward-zero
truncation, result carries the sign of the dividend). -/
noncomputable def jsfmod360 (l : ℝ) : ℝ := l - jstrunc (l / 360) * 360

/-- The Newton correction dl = e - 0.016718 sin e - x computed in the body of
the do-while loop of Astro.sunPosition. -/
noncomputable def keplerDl (x e : ℝ) : ℝ := e - 0.016718 * Real.sin e - x

/-- One Newton update e := e - dl / (1 - 0.016718 cos e). -/
noncomputable def keplerNext (x e : ℝ) : ℝ :=
  e - keplerDl x e / (1 - 0.016718 * Real.cos e)

/-- The do-while loop of Astro.sunPosition: update, then exit as soon as
abs dl < SMALL_FLOAT.  The source loop has no iteration counter; the fuel
argument is an artifact of the embedding, and none stands for the loop still
running after that many iterations. -/
noncomputable def keplerGo (x : ℝ) : ℕ → ℝ → Option ℝ
  | 0, _ => none
  | fuel + 1, e =>
    if |keplerDl x e| < SMALL_FLOAT then some (keplerNext x e)
    else keplerGo x fuel (keplerNext x e)

/-- The mean-anomaly input x of the Newton solve (the first five lines of
Astro.sunPosition). -/
noncomputable def sunM (j : ℝ) : ℝ :=
  let n := jsfmod360 (360 / 365.2422 * j)
  let x := if n - 3.762863 < 0 then n - 3.762863 + 360 else n - 3.762863
  x * RADS

/-- The longitude built from the Newton solution e (the tail of
Astro.sunPosition before the final 360-degree reduction). -/
noncomputable def sunV (e : ℝ) : ℝ :=
  360 / Real.pi * Real.arctan (1.01686011182 * Real.tan (e / 2))

/-- Astro.sunPosition (degrees), with the Newton loop under fuel. -/
noncomputable def sunPosition (fuel : ℕ) (j : ℝ) : Option ℝ :=
  (keplerGo (sunM j) fuel (sunM j)).map fun e => jsfmod360 (sunV e + 282.596403)

/-- ms of Astro.moonPosition: sun mean anomaly in degrees. -/
noncomputable def moonMs (j : ℝ) : ℝ :=
  let ms := 0.985647332099 * j - 3.762863
  if ms < 0 then ms + 360 else ms

/-- The normalized mean lunar longitude l of Astro.moonPosition (reduced to
[0, 360) by the trunc idiom plus a sign fix). -/
noncomputable def moonBaseL (j : ℝ) : ℝ :=
  let l := jsfmod360 (13.176396 * j + 64.975464)
  if l < 0 then l + 360 else l

/-- The reduced mean lunar anomaly mm of Astro.moonPosition (the source does
not fix its sign afterwards). -/
noncomputable def moonMm (j : ℝ) : ℝ :=
  jsfmod360 (moonBaseL j - 0.1114041 * j - 349.383063)

/-- Evection term ev. -/
noncomputable def moonEv (j ls : ℝ) : ℝ :=
  1.2739 * Real.sin ((2 * (moonBaseL j - ls) - moonMm j) * RADS)

/-- Annual-equation term ae = 0.1858 sin ms. -/
noncomputable def moonAe (j : ℝ) : ℝ := 0.1858 * Real.sin (moonMs j * RADS)

/-- The corrected anomaly mm + ev - ae - 0.37 sin ms. -/
noncomputable def moonMm3 (j ls : ℝ) : ℝ :=
  moonMm j + moonEv j ls - moonAe j - 0.37 * Real.sin (moonMs j * RADS)

/-- Equation-of-centre term ec = 6.2886 sin mm. -/
noncomputable def moonEc (j ls : ℝ) : ℝ := 6.2886 * Real.sin (moonMm3 j ls * RADS)

/-- The longitude after the ev, ec, ae and 0.214 corrections. -/
noncomputable def moonL4 (j ls : ℝ) : ℝ :=
  moonBaseL j + moonEv j ls + moonEc j ls - moonAe j
    + 0.214 * Real.sin (2 * moonMm3 j ls * RADS)

/-- Astro.moonPosition (degrees): the variation term on top of moonL4.  The
source also computes a node longitude n that it never uses afterwards; that
dead assignment is omitted. -/
noncomputable def moonPosition (j ls : ℝ) : ℝ :=
  0.6583 * Real.sin (2 * (moonL4 j ls - ls) * RADS) + moonL4 j ls

/-- The Julian argument of Astro.moonPhase_: the -2444238.5 shift is applied
to the day argument before calling julian, and the UTC offset is added after
(jUtc). -/
noncomputable def moonPhaseJ (dt : JSDate) : ℝ :=
  julian dt.year dt.month
      ((dt.day : ℝ) + ((dt.hour : ℝ) + (dt.minute : ℝ) / 60) / 24 - 2444238.5)
    + (dt.tzOffset : ℝ) / (60 * 24)

/-- t = lm - ls with the single +360 correction applied to negative values. -/
noncomputable def phaseT (lm ls : ℝ) : ℝ :=
  let t := lm - ls
  if t < 0 then t + 360 else t

/-- Astro.moonPhase_: octant p, phase angle, illumination percent.  The
octant mask p & 0x7 is written % 8; the truncation argument is nonnegative
for every reachable t, where the two operations agree. -/
noncomputable def moonPhase_ (fuel : ℕ) (dt : JSDate) : Option (ℤ × ℝ × ℝ) :=
  (sunPosition fuel (moonPhaseJ dt)).map fun ls =>
    let lm := moonPosition (moonPhaseJ dt) ls
    let t := phaseT lm ls
    (jstrunc ((t + 22.5) / 45) % 8, t, (1 - Real.cos ((lm - ls) * RADS)) / 2)

/-- Astro.phase: the phase angle reduced by the JS remainder % 360.0. -/
noncomputable def phase (fuel : ℕ) (dt : JSDate) : Option ℝ :=
  (moonPhase_ fuel dt).map fun r => jsfmod360 r.2.1

/-- Astro.moonPhase: lunar quarter 0 = new .. 3 = last quarter. -/
noncomputable def moonPhase (fuel : ℕ) (dt : JSDate) : Option ℤ :=
  (phase fuel dt).map fun p => jstrunc (p / 90)

end Astro

/-- The loop guard of the Newton do-while in Astro.sunPosition, as a function
of the current residual and of the number of iterations already run: the
source guard reads abs dl >= SMALL_FLOAT and ignores the iteration count. -/
def keplerLoopGuard (dl : ℝ) (_iterations : ℕ) : Prop := Astro.SMALL_FLOAT ≤ |dl|

/-! ## C3: the Kepler Newton loop -/

/-- C3 counterexample: the Newton solver is not bounded by a maximum
iteration count: the source loop guard keeps the loop running on residual 1
even at iteration 1000, far past the claimed cap of about 50, so no
non-convergence error can ever be raised. -/
theorem c3_counterexample : ¬ ∀ (dl : ℝ) (i : ℕ), keplerLoopGuard dl i → i < 50 := by
  intro h
  have h2 := h 1 1000 (by unfold keplerLoopGuard Astro.SMALL_FLOAT; norm_num)
  omega

/-- C3 amended: the Newton solver iterates until the correction residual
drops below 1e-12, with no iteration cap and no error reporting: at every
iteration count the loop exits, returning the updated estimate, exactly when
the residual is below SMALL_FLOAT, and otherwise continues regardless of how
many iterations have already run. -/
theorem c3_kepler_uncapped : ∀ (x e : ℝ) (n : ℕ),
    (|Astro.keplerDl x e| < Astro.SMALL_FLOAT →
      Astro.keplerGo x (n + 1) e = some (Astro.keplerNext x e))
    ∧ (Astro.SMALL_FLOAT ≤ |Astro.keplerDl x e| →
      Astro.keplerGo x (n + 1) e = Astro.keplerGo x n (Astro.keplerNext x e)) := by
  intro x e n
  have hstep : Astro.keplerGo x (n + 1) e =
      if |Astro.keplerDl x e| < Astro.SMALL_FLOAT then some (Astro.keplerNext x e)
      else Astro.keplerGo x n (Astro.keplerNext x e) := rfl
  constructor
  · intro h
    rw [hstep, if_pos h]
  · intro h
    rw [hstep, if_neg (not_lt.mpr h)]

/-- C3 witness: both loop behaviours at concrete inputs: at x = 0, e = 0 the
residual is 0 and the loop returns at once; at x = 0, e = 1 the residual
exceeds 1e-12 and the loop continues even with an iteration budget of 100. -/
theorem c3_kepler_uncapped_witness :
    Astro.keplerGo 0 1 0 = some (Astro.keplerNext 0 0)
      ∧ Astro.keplerGo 0 101 1 = Astro.keplerGo 0 100 (Astro.keplerNext 0 1) := by
  constructor
  · refine (c3_kepler_uncapped 0 0 0).1 ?_
    unfold Astro.keplerDl Astro.SMALL_FLOAT
    norm_num [Real.sin_zero]
  · refine (c3_kepler_uncapped 0 1 100).2 ?_
    unfold Astro.keplerDl Astro.SMALL_FLOAT
    have hs := Real.sin_le_one 1
    have h1 : (0.9 : ℝ) ≤ 1 - 0.016718 * Real.sin 1 - 0 := by nlinarith
    rw [abs_of_nonneg (by linarith)]
    linarith [h1]

/-! ## C7: classification ranges -/

theorem jsfmod360_mem_of_nonneg {l : ℝ} (h : 0 ≤ l) :
    0 ≤ Astro.jsfmod360 l ∧ Astro.jsfmod360 l < 360 := by
  unfold Astro.jsfmod360
  rw [jstrunc_of_nonneg (by positivity)]
  have h1 := Int.fract_nonneg (l / 360)
  have h2 := Int.fract_lt_one (l / 360)
  have heq : l - ((⌊l / 360⌋ : ℤ) : ℝ) * 360 = 360 * Int.fract (l / 360) := by
    unfold Int.fract
    ring
  rw [heq]
  constructor <;> nlinarith

theorem jsfmod360_mem_of_neg {l : ℝ} (h : l < 0) :
    -360 < Astro.jsfmod360 l ∧ Astro.jsfmod360 l ≤ 0 := by
  unfold Astro.jsfmod360
  rw [jstrunc_of_neg (div_neg_of_neg_of_pos h (by norm_num))]
  have h1 := Int.fract_nonneg (-(l / 360))
  have h2 := Int.fract_lt_one (-(l / 360))
  have heq : l - ((-⌊-(l / 360)⌋ : ℤ) : ℝ) * 360 = -(360 * Int.fract (-(l / 360))) := by
    push_cast
    unfold Int.fract
    ring
  rw [heq]
  constructor <;> nlinarith

theorem jsfmod360_bounds (l : ℝ) :
    -360 < Astro.jsfmod360 l ∧ Astro.jsfmod360 l < 360 := by
  rcases le_or_lt 0 l with h | h
  · have := jsfmod360_mem_of_nonneg h
    exact ⟨by linarith [this.1], this.2⟩
  · have := jsfmod360_mem_of_neg h
    exact ⟨this.1, by linarith [this.2]⟩

theorem sunV_bounds (e : ℝ) : -180 < Astro.sunV e ∧ Astro.sunV e < 180 := by
  unfold Astro.sunV
  set A := 1.01686011182 * Real.tan (e / 2) with hA
  have h1 := Real.arctan_lt_pi_div_two A
  have h2 := Real.neg_pi_div_two_lt_arctan A
  have hpi := Real.pi_pos
  have hc : (0 : ℝ) < 360 / Real.pi := by positivity
  have hkey : 360 / Real.pi * (Real.pi / 2) = 180 := by
    field_simp
    norm_num
  constructor
  · have := mul_lt_mul_of_pos_left h2 hc
    rw [show 360 / Real.pi * -(Real.pi / 2) = -(360 / Real.pi * (Real.pi / 2)) by ring,
      hkey] at this
    linarith
  · have := mul_lt_mul_of_pos_left h1 hc
    rw [hkey] at this
    linarith

/-- Whatever value the Newton loop returns, the final reduction of
sunPosition lands in [0, 360). -/
theorem sunPosition_mem {fuel : ℕ} {j ls : ℝ}
    (h : Astro.sunPosition fuel j = some ls) : 0 ≤ ls ∧ ls < 360 := by
  unfold Astro.sunPosition at h
  cases hk : Astro.keplerGo (Astro.sunM j) fuel (Astro.sunM j) with
  | none => rw [hk] at h; simp at h
  | some e =>
    rw [hk] at h
    simp only [Option.map_some', Option.some.injEq] at h
    have hv := sunV_bounds e
    have hpos : 0 ≤ Astro.sunV e + 282.596403 := by linarith [hv.1]
    have := jsfmod360_mem_of_nonneg hpos
    rw [h] at this
    exact this

theorem moonBaseL_mem (j : ℝ) : 0 ≤ Astro.moonBaseL j ∧ Astro.moonBaseL j < 360 := by
  obtain ⟨hb1, hb2⟩ := jsfmod360_bounds (13.176396 * j + 64.975464)
  unfold Astro.moonBaseL
  by_cases h : Astro.jsfmod360 (13.176396 * j + 64.975464) < 0
  · rw [if_pos h]
    constructor <;> linarith
  · rw [if_neg h]
    push_neg at h
    exact ⟨h, hb2⟩

theorem mul_sin_bound (c θ : ℝ) (hc : 0 ≤ c) : |c * Real.sin θ| ≤ c := by
  rw [abs_mul, abs_of_nonneg hc]
  have hs : |Real.sin θ| ≤ 1 := abs_le.mpr ⟨Real.neg_one_le_sin θ, Real.sin_le_one θ⟩
  nlinarith

theorem moonEv_bound (j ls : ℝ) : |Astro.moonEv j ls| ≤ 1.2739 := by
  unfold Astro.moonEv
  exact mul_sin_bound _ _ (by norm_num)

theorem moonAe_bound (j : ℝ) : |Astro.moonAe j| ≤ 0.1858 := by
  unfold Astro.moonAe
  exact mul_sin_bound _ _ (by norm_num)

theorem moonEc_bound (j ls : ℝ) : |Astro.moonEc j ls| ≤ 6.2886 := by
  unfold Astro.moonEc
  exact mul_sin_bound _ _ (by norm_num)

theorem moonL4_bounds (j ls : ℝ) :
    -7.97 < Astro.moonL4 j ls ∧ Astro.moonL4 j ls < 367.97 := by
  have hL := moonBaseL_mem j
  have hev := abs_le.mp (moonEv_bound j ls)
  have hae := abs_le.mp (moonAe_bound j)
  have hec := abs_le.mp (moonEc_bound j ls)
  have hs := abs_le.mp (mul_sin_bound 0.214 (2 * Astro.moonMm3 j ls * Astro.RADS)
    (by norm_num))
  unfold Astro.moonL4
  constructor <;> [nlinarith [hL.1]; nlinarith [hL.2]]

theorem moonPosition_bounds (j ls : ℝ) :
    -8.63 < Astro.moonPosition j ls ∧ Astro.moonPosition j ls < 368.63 := by
  have hl4 := moonL4_bounds j ls
  have hs := abs_le.mp (mul_sin_bound 0.6583 (2 * (Astro.moonL4 j ls - ls) * Astro.RADS)
    (by norm_num))
  unfold Astro.moonPosition
  constructor <;> nlinarith

theorem phaseT_bounds {lm ls : ℝ} (hlm : -8.63 < lm ∧ lm < 368.63)
    (hls : 0 ≤ ls ∧ ls < 360) :
    -8.63 < Astro.phaseT lm ls ∧ Astro.phaseT lm ls < 368.63 := by
  unfold Astro.phaseT
  by_cases h : lm - ls < 0
  · rw [if_pos h]
    constructor <;> linarith [hlm.1, hls.2]
  · rw [if_neg h]
    constructor <;> linarith [hlm.2, hls.1]

/-- The phase value after the final JS remainder: reachable phase angles lie
in (-90, 360), which is what the quarter classification needs (the lower end
is in fact above -8.63; [0, 360) is not established, see the note on C7). -/
theorem phase_reduced_bounds {t : ℝ} (h : -8.63 < t ∧ t < 368.63) :
    -90 < Astro.jsfmod360 t ∧ Astro.jsfmod360 t < 360 := by
  rcases le_or_lt 0 t with h0 | h0
  · rcases lt_or_le t 360 with h1 | h1
    · have heq : Astro.jsfmod360 t = t := by
        unfold Astro.jsfmod360
        rw [jstrunc_of_nonneg (by positivity)]
        have hfl : ⌊t / 360⌋ = 0 := by
          rw [Int.floor_eq_zero_iff]
          constructor
          · positivity
          · rw [div_lt_one (by norm_num : (0:ℝ) < 360)] at *
            linarith
        rw [hfl]
        norm_num
      rw [heq]
      constructor <;> linarith
    · have heq : Astro.jsfmod360 t = t - 360 := by
        unfold Astro.jsfmod360
        rw [jstrunc_of_nonneg (by positivity)]
        have hfl : ⌊t / 360⌋ = 1 := by
          rw [Int.floor_eq_iff]
          constructor
          · push_cast
            rw [le_div_iff₀ (by norm_num : (0:ℝ) < 360)]
            linarith
          · push_cast
            rw [div_lt_iff₀ (by norm_num : (0:ℝ) < 360)]
            linarith
        rw [hfl]
        push_cast
        ring
      rw [heq]
      constructor <;> linarith
  · have heq : Astro.jsfmod360 t = t := by
      unfold Astro.jsfmod360
      rw [jstrunc_of_neg (div_neg_of_neg_of_pos h0 (by norm_num))]
      have hfl : ⌊-(t / 360)⌋ = 0 := by
        rw [Int.floor_eq_zero_iff]
        have hneg : t / 360 < 0 := div_neg_of_neg_of_pos h0 (by norm_num)
        have heq : -(t / 360) = (-t) / 360 := by ring
        have hlt : (-t) / 360 < 1 := by
          rw [div_lt_one (by norm_num : (0:ℝ) < 360)]
          linarith [h.1]
        constructor
        · linarith
        · rw [heq]
          exact hlt
      rw [hfl]
      norm_num
    rw [heq]
    constructor <;> linarith

theorem quarter_range {p : ℝ} (h : -90 < p ∧ p < 360) :
    0 ≤ jstrunc (p / 90) ∧ jstrunc (p / 90) ≤ 3 := by
  rcases le_or_lt 0 p with h0 | h0
  · rw [jstrunc_of_nonneg (by positivity)]
    constructor
    · exact Int.floor_nonneg.mpr (by positivity)
    · have hlt : ⌊p / 90⌋ < 4 := by
        rw [Int.floor_lt]
        push_cast
        rw [div_lt_iff₀ (by norm_num : (0:ℝ) < 90)]
        linarith [h.2]
      omega
  · rw [jstrunc_of_neg (div_neg_of_neg_of_pos h0 (by norm_num))]
    have hfl : ⌊-(p / 90)⌋ = 0 := by
      rw [Int.floor_eq_zero_iff]
      have hneg : p / 90 < 0 := div_neg_of_neg_of_pos h0 (by norm_num)
      have heq : -(p / 90) = (-p) / 90 := by ring
      have hlt : (-p) / 90 < 1 := by
        rw [div_lt_one (by norm_num : (0:ℝ) < 90)]
        linarith [h.1]
      constructor
      · linarith
      · rw [heq]
        exact hlt
    rw [hfl]
    norm_num

/-- C7 amended: for every civil date the classifiers stay in range: sign in
[0, 11], season in [0, 3], and whenever the precise pipeline returns (the
Option and fuel embed the unbounded Newton loop of sunPosition) the quarter
is in [0, 3]; the moon-minus-sun phase angle lands in (-90, 360) rather than
in [0, 360) as the claim words it (the single +360 correction of phaseT can
undercorrect, see the counterexample), which still keeps the quarter in
range because the truncation rounds toward zero. -/
theorem c7_classification_ranges :
    ∀ (dt : Astro.JSDate) (fuel : ℕ),
      (0 ≤ Astro.sign dt ∧ Astro.sign dt ≤ 11)
        ∧ (0 ≤ Astro.season dt ∧ Astro.season dt ≤ 3)
        ∧ (Option.elim (Astro.moonPhase fuel dt) True fun q => 0 ≤ q ∧ q ≤ 3)
        ∧ Option.elim (Astro.phase fuel dt) True fun p => -90 < p ∧ p < 360 := by
  intro dt fuel
  have hs := sun_mem ((Astro.epoch2000Date dt : ℚ) : ℝ)
  have hT := tpi_pos
  have hu0 : 0 ≤ Astro.sunAngle dt / Astro.TPI := div_nonneg hs.1 hT.le
  have hu1 : Astro.sunAngle dt / Astro.TPI < 1 := (div_lt_one hT).mpr hs.2
  refine ⟨?_, ?_, ?_, ?_⟩
  · rw [sign_floor_form]
    constructor
    · exact Int.floor_nonneg.mpr (by positivity)
    · have hlt : ⌊Astro.sunAngle dt / Astro.TPI * 12⌋ < 12 := by
        rw [Int.floor_lt]
        push_cast
        nlinarith
      omega
  · rw [season_floor_form]
    constructor
    · exact Int.floor_nonneg.mpr (by positivity)
    · have hlt : ⌊Astro.sunAngle dt / Astro.TPI * 4⌋ < 4 := by
        rw [Int.floor_lt]
        push_cast
        nlinarith
      omega
  · unfold Astro.moonPhase Astro.phase Astro.moonPhase_
    cases hsp : Astro.sunPosition fuel (Astro.moonPhaseJ dt) with
    | none => simp
    | some ls =>
      simp only [Option.map_some', Option.elim_some]
      have hls := sunPosition_mem hsp
      have hlm := moonPosition_bounds (Astro.moonPhaseJ dt) ls
      have ht := phaseT_bounds hlm hls
      have hp := phase_reduced_bounds ht
      exact quarter_range hp
  · unfold Astro.phase Astro.moonPhase_
    cases hsp : Astro.sunPosition fuel (Astro.moonPhaseJ dt) with
    | none => simp
    | some ls =>
      simp only [Option.map_some', Option.elim_some]
      have hls := sunPosition_mem hsp
      have hlm := moonPosition_bounds (Astro.moonPhaseJ dt) ls
      have ht := phaseT_bounds hlm hls
      exact phase_reduced_bounds ht

/-- C7 counterexample: the phase-angle reduction of moonPhase_ and phase does
not force [0, 360).  On longitude inputs lying inside the proven reachable
envelopes of the two routines (moonPosition can dip below 0, sunPosition
stays in [0, 360)), the lone +360 correction of phaseT undercorrects and the
reduced phase angle comes out negative: at moon longitude -4 and sun
longitude 358 the phase angle is -2. -/
theorem c7_counterexample :
    ((-8.63 : ℝ) < -4 ∧ (-4 : ℝ) < 368.63)
      ∧ ((0 : ℝ) ≤ 358 ∧ (358 : ℝ) < 360)
      ∧ Astro.jsfmod360 (Astro.phaseT (-4) 358) < 0 := by
  refine ⟨by norm_num, by norm_num, ?_⟩
  have h1 : Astro.phaseT (-4) 358 = -2 := by
    unfold Astro.phaseT
    norm_num
  rw [h1]
  unfold Astro.jsfmod360
  rw [jstrunc_of_neg (by norm_num : (-2 : ℝ) / 360 < 0)]
  have h2 : ⌊-((-2 : ℝ) / 360)⌋ = 0 := by
    rw [Int.floor_eq_zero_iff]
    constructor
    · norm_num
    · norm_num
  rw [h2]
  norm_num

/-! ## The CalendarDate layer: endOfDay, the new-moon-week flag, and the
sub-day bisection.  These consume Astro.season / Astro.moonPhase only through
their values at millisecond instants (or at day fractions), so they are
embedded over abstract classifier maps. -/

namespace Astro

/-- Astro.endOfDay at millisecond granularity: the local midnight that opens
the day plus exactly 86400000 ms (not the next calendar midnight). -/
def endOfDay (m : ℤ) : ℤ := m + 86400000

end Astro

namespace CalendarDate

/-- CalendarDate._newMoonWeek over abstract instant classifiers (millisecond
instant to value); today is the local midnight of the day.  mSeason and
mLunarPhase are the constructor values, sampled at Astro.endOfDay today; the
six-days-ago samples are taken at the instant today - 6 days itself, the
midnight that opens that day. -/
def newMoonWeek (seasonAt moonPhaseAt : ℤ → ℤ) (today : ℤ) : Bool :=
  let mSeason := seasonAt (Astro.endOfDay today)
  let mLunarPhase := moonPhaseAt (Astro.endOfDay today)
  let sixDaysAgo := today - 6 * 86400000
  if mSeason = seasonAt sixDaysAgo then
    if mLunarPhase = 0 ∧ moonPhaseAt sixDaysAgo = 3 then true else false
  else false

/-- Modelled from the words of claim C2, for comparison with newMoonWeek:
the record classified six days before is read at its own end-of-day instant,
endOfDay (today - 6 days). -/
def newMoonWeekSpec (seasonAt moonPhaseAt : ℤ → ℤ) (today : ℤ) : Bool :=
  decide (moonPhaseAt (Astro.endOfDay today) = 0)
    && decide (seasonAt (Astro.endOfDay (today - 6 * 86400000))
        = seasonAt (Astro.endOfDay today))
    && decide (moonPhaseAt (Astro.endOfDay (today - 6 * 86400000)) = 3)

/-- The 20-iteration halving loop that _findSplitFraction and
_findPhaseFraction both contain verbatim (for-loop over the bracket lo, hi;
the predicate decides which half to keep). -/
def bisectGo (P : ℚ → Bool) : ℕ → ℚ × ℚ → ℚ × ℚ
  | 0, lh => lh
  | n + 1, lh =>
    let mid := (lh.1 + lh.2) / 2
    if P mid then bisectGo P n (mid, lh.2) else bisectGo P n (lh.1, mid)

/-- CalendarDate._findSplitFraction over an abstract classifier: signAt t is
Astro.sign at fraction t of the day, mSignStart the day-start sign; the loop
keeps the lower half while the sign still equals mSignStart, and the midpoint
of the final bracket is returned. -/
def findSplitFraction (signAt : ℚ → ℤ) (mSignStart : ℤ) : ℚ :=
  let lh := bisectGo (fun mid => decide (signAt mid = mSignStart)) 20 (0, 1)
  (lh.1 + lh.2) / 2

/-- CalendarDate._findPhaseFraction: the identical loop, with the predicate
comparing the quarter at fraction t of the day to (mLunarPhase + 3) % 4. -/
def findPhaseFraction (phaseAt : ℚ → ℤ) (mLunarPhase : ℤ) : ℚ :=
  let oldPhase := (mLunarPhase + 3) % 4
  let lh := bisectGo (fun mid => decide (phaseAt mid = oldPhase)) 20 (0, 1)
  (lh.1 + lh.2) / 2

end CalendarDate

/-! ## C2: the new-moon-week flag -/

def c2SeasonAt (_ : ℤ) : ℤ := 0

/-- An instant classifier whose quarter is 3 at the midnight six days before
day 0, and 0 at the end of day 0, but 1 everywhere else: the code flags the
week, the claimed end-of-day formulation does not. -/
def c2MoonPhaseAt (t : ℤ) : ℤ :=
  if t = -6 * 86400000 then 3 else if t = 86400000 then 0 else 1

/-- C2 counterexample: a classifier environment on which newMoonWeek as coded
(six-days-ago sampled at that midnight) differs from the claimed formula
(six-days-ago sampled at that end-of-day): the claimed iff fails for day 0. -/
theorem c2_counterexample :
    CalendarDate.newMoonWeek c2SeasonAt c2MoonPhaseAt 0 = true
      ∧ CalendarDate.newMoonWeekSpec c2SeasonAt c2MoonPhaseAt 0 = false := by
  decide

/-- C2 amended: isNewMoonWeek holds iff the quarter at the end of the day is
0, and the season and quarter sampled at the instant exactly six days before
midnight (the end-of-day instant of the day seven days before, not six) are
the season of the day and 3. -/
theorem c2_newMoonWeek_formula :
    ∀ (seasonAt moonPhaseAt : ℤ → ℤ) (today : ℤ),
      CalendarDate.newMoonWeek seasonAt moonPhaseAt today =
        (decide (moonPhaseAt (Astro.endOfDay today) = 0)
          && decide (seasonAt (today - 6 * 86400000) = seasonAt (Astro.endOfDay today))
          && decide (moonPhaseAt (today - 6 * 86400000) = 3)) := by
  intro seasonAt moonPhaseAt today
  unfold CalendarDate.newMoonWeek
  by_cases h1 : seasonAt (Astro.endOfDay today) = seasonAt (today - 6 * 86400000)
  · rw [if_pos h1]
    by_cases h2 : moonPhaseAt (Astro.endOfDay today) = 0
      ∧ moonPhaseAt (today - 6 * 86400000) = 3
    · rw [if_pos h2, decide_eq_true h2.1, decide_eq_true h1.symm, decide_eq_true h2.2]
      rfl
    · rw [if_neg h2]
      rcases not_and_or.mp h2 with h | h
      · rw [decide_eq_false h, Bool.false_and, Bool.false_and]
      · rw [decide_eq_false h, Bool.and_false]
  · rw [if_neg h1]
    have h1' : ¬ seasonAt (today - 6 * 86400000) = seasonAt (Astro.endOfDay today) :=
      fun hh => h1 hh.symm
    rw [decide_eq_false h1', Bool.and_false, Bool.false_and]

/-! ## C6: bisection bracket correctness -/

theorem bisectGo_succ (P : ℚ → Bool) (n : ℕ) (lo hi : ℚ) :
    CalendarDate.bisectGo P (n + 1) (lo, hi)
      = if P ((lo + hi) / 2) then CalendarDate.bisectGo P n ((lo + hi) / 2, hi)
        else CalendarDate.bisectGo P n (lo, (lo + hi) / 2) := rfl

theorem bisectGo_width (P : ℚ → Bool) :
    ∀ (n : ℕ) (lo hi : ℚ),
      (CalendarDate.bisectGo P n (lo, hi)).2 - (CalendarDate.bisectGo P n (lo, hi)).1
        = (hi - lo) / 2 ^ n := by
  intro n
  induction n with
  | zero =>
    intro lo hi
    simp [CalendarDate.bisectGo]
  | succ n ih =>
    intro lo hi
    rw [bisectGo_succ]
    by_cases h : P ((lo + hi) / 2) = true
    · rw [if_pos h, ih]
      field_simp
      ring
    · rw [if_neg h, ih]
      field_simp
      ring

theorem bisectGo_invariant (P : ℚ → Bool) :
    ∀ (n : ℕ) (lo hi : ℚ), P lo = true → P hi = false →
      P (CalendarDate.bisectGo P n (lo, hi)).1 = true
        ∧ P (CalendarDate.bisectGo P n (lo, hi)).2 = false := by
  intro n
  induction n with
  | zero =>
    intro lo hi h1 h2
    exact ⟨h1, h2⟩
  | succ n ih =>
    intro lo hi h1 h2
    rw [bisectGo_succ]
    cases hm : P ((lo + hi) / 2) with
    | true =>
      rw [if_pos rfl]
      exact ih _ _ hm h2
    | false =>
      rw [if_neg Bool.false_ne_true]
      exact ih _ _ h1 hm

/-- The bisection never leaves its initial bracket, and the bracket stays
ordered. -/
theorem bisectGo_bounds (P : ℚ → Bool) :
    ∀ (n : ℕ) (lo hi : ℚ), lo ≤ hi →
      lo ≤ (CalendarDate.bisectGo P n (lo, hi)).1
        ∧ (CalendarDate.bisectGo P n (lo, hi)).1 ≤ (CalendarDate.bisectGo P n (lo, hi)).2
        ∧ (CalendarDate.bisectGo P n (lo, hi)).2 ≤ hi := by
  intro n
  induction n with
  | zero =>
    intro lo hi h
    exact ⟨le_refl _, h, le_refl _⟩
  | succ n ih =>
    intro lo hi h
    rw [bisectGo_succ]
    by_cases hm : P ((lo + hi) / 2) = true
    · rw [if_pos hm]
      have hrec := ih ((lo + hi) / 2) hi (by linarith)
      exact ⟨by linarith [hrec.1], hrec.2.1, hrec.2.2⟩
    · rw [if_neg hm]
      have hrec := ih lo ((lo + hi) / 2) (by linarith)
      exact ⟨hrec.1, hrec.2.1, by linarith [hrec.2.2]⟩

/-- C6: the bisection runs a fixed 20 iterations halving [0, 1], so the
final bracket has width exactly 2 to the -20; and for a single-step
predicate of the shape the two call sites produce (the sign, or the lunar
quarter, equals its day-start value up to one transition, so its truth set
is downward closed on a neighbourhood of the day) that holds at 0 and fails
at 1, the returned midpoint f satisfies: the predicate still holds at
f - 2 to the -20 and fails at f + 2 to the -20.  findPhaseFraction is the
identical computation with target (mLunarPhase + 3) % 4. -/
theorem c6_bisection_bracket :
    ∀ (signAt : ℚ → ℤ) (s : ℤ),
      ((CalendarDate.bisectGo (fun mid => decide (signAt mid = s)) 20 (0, 1)).2
          - (CalendarDate.bisectGo (fun mid => decide (signAt mid = s)) 20 (0, 1)).1
        = 1 / 2 ^ 20)
      ∧ ((∀ u v : ℚ, -1 ≤ u → u ≤ v → v ≤ 2 → signAt v = s → signAt u = s) →
          signAt 0 = s → signAt 1 ≠ s →
          signAt (CalendarDate.findSplitFraction signAt s - 1 / 2 ^ 20) = s
            ∧ signAt (CalendarDate.findSplitFraction signAt s + 1 / 2 ^ 20) ≠ s)
      ∧ ∀ (phaseAt : ℚ → ℤ) (q : ℤ),
          CalendarDate.findPhaseFraction phaseAt q
            = CalendarDate.findSplitFraction phaseAt ((q + 3) % 4) := by
  intro signAt s
  have hw := bisectGo_width (fun mid => decide (signAt mid = s)) 20 0 1
  refine ⟨by rw [hw]; norm_num, ?_, fun phaseAt q => rfl⟩
  intro hmono h0 h1
  have hinv := bisectGo_invariant (fun mid => decide (signAt mid = s)) 20 0 1
    (decide_eq_true h0) (decide_eq_false h1)
  have hb := bisectGo_bounds (fun mid => decide (signAt mid = s)) 20 0 1 (by norm_num)
  set lh := CalendarDate.bisectGo (fun mid => decide (signAt mid = s)) 20 (0, 1) with hlh
  have hf : CalendarDate.findSplitFraction signAt s = (lh.1 + lh.2) / 2 := rfl
  have hwidth : lh.2 - lh.1 = 1 / 2 ^ 20 := by
    rw [hw]
    norm_num
  have hb1 : 0 ≤ lh.1 := hb.1
  have hb2 : lh.1 ≤ lh.2 := hb.2.1
  have hb3 : lh.2 ≤ 1 := hb.2.2
  have hsmall : (0 : ℚ) < 1 / 2 ^ 20 ∧ (1 : ℚ) / 2 ^ 20 ≤ 1 := by norm_num
  have hlo : signAt lh.1 = s := of_decide_eq_true hinv.1
  have hhi : signAt lh.2 ≠ s := of_decide_eq_false hinv.2
  rw [hf]
  constructor
  · exact hmono ((lh.1 + lh.2) / 2 - 1 / 2 ^ 20) lh.1
      (by linarith [hsmall.1, hsmall.2]) (by linarith [hsmall.1])
      (by linarith [hsmall.2]) hlo
  · intro hcontra
    exact hhi (hmono lh.2 ((lh.1 + lh.2) / 2 + 1 / 2 ^ 20)
      (by linarith [hsmall.1]) (by linarith [hsmall.1])
      (by linarith [hsmall.1, hsmall.2]) hcontra)

/-- A concrete predicate environment for the C6 witness: the sign is 7
before one third of the day and 9 from then on (one downward step). -/
def c6wSignAt (t : ℚ) : ℤ := if t < 1 / 3 then 7 else 9

/-- C6 witness: the bracket property applied at the concrete crossing of
c6wSignAt, with the single-step and both endpoint hypotheses discharged. -/
theorem c6_bisection_bracket_witness :
    c6wSignAt (CalendarDate.findSplitFraction c6wSignAt 7 - 1 / 2 ^ 20) = 7
      ∧ c6wSignAt (CalendarDate.findSplitFraction c6wSignAt 7 + 1 / 2 ^ 20) ≠ 7 :=
  (c6_bisection_bracket c6wSignAt 7).2.1
    (by
      intro u v _ huv _ hv
      unfold c6wSignAt at hv ⊢
      by_cases h : v < 1 / 3
      · rw [if_pos (lt_of_le_of_lt huv h)]
      · rw [if_neg h] at hv
        norm_num at hv)
    (by norm_num [c6wSignAt]) (by norm_num [c6wSignAt])

/-! ## The grid layout engine (app.js findFirstInSeason / constructSeason and
CalendarDate.next).  Days are indexed by an integer; phaseOf and seasonOf
give the values of Astro.moonPhase and Astro.season at the end-of-day
instant of each day, which is the only way the layout consumes them. -/

/-- One placed day record: the classifier fields of the CalendarDate
constructor that the layout consumes, the mPlace grid position in pinch
units, and the phase-row flags assigned by next(). -/
structure DayRec where
  day : ℤ
  seas : ℤ
  phase : ℤ
  x : ℚ
  y : ℚ
  isPhaseStart : Bool
  isPhaseEnd : Bool
deriving DecidableEq

/-- The CalendarDate constructor as the layout sees it: classify one civil
day; mPlace starts at the origin and both phase flags clear. -/
def classify (phaseOf seasonOf : ℤ → ℤ) (d : ℤ) : DayRec :=
  ⟨d, seasonOf d, phaseOf d, 0, 0, false, false⟩

/-- CalendarDate.next(): classify tomorrow, then either step right on the
same row (same quarter, x + 0.5) or mark the phase boundary on both records
and drop to a new row (x - 19/6, y + 0.5).  Returns the pair (current as
mutated by next, the placed next day); the JS array observes the mutated
current.  The sub-day mPhaseFraction bisection is the findPhaseFraction
computation treated under C6 and not re-run here. -/
def nextDay (phaseOf seasonOf : ℤ → ℤ) (cur : DayRec) : DayRec × DayRec :=
  let n := classify phaseOf seasonOf (cur.day + 1)
  if n.phase = cur.phase then
    (cur, { n with x := cur.x + 0.5, y := cur.y })
  else
    ({ cur with isPhaseEnd := true },
      { n with isPhaseStart := true, x := cur.x - 19/6, y := cur.y + 0.5 })

/-- The backward loop of findFirstInSeason: up to 200 iterations; as soon as
the season at the end of day d - 1 differs from the target, return
(d - 1) + 1; when the fuel is exhausted, fall back to the anchor date d0. -/
def findFirstGo (seasonOf : ℤ → ℤ) (target d0 : ℤ) : ℕ → ℤ → ℤ
  | 0, _ => d0
  | n + 1, d =>
    if seasonOf (d - 1) ≠ target then (d - 1) + 1
    else findFirstGo seasonOf target d0 n (d - 1)

/-- findFirstInSeason of app.js. -/
def findFirstInSeason (seasonOf : ℤ → ℤ) (date : ℤ) : ℤ :=
  findFirstGo seasonOf (seasonOf date) date 200 date

/-- The push/advance loop of constructSeason: at most 200 iterations,
stopping (without pushing) as soon as the season differs from the target.
The record appended is the one the subsequent next() call has mutated, which
is how the JS array observes it.  The bounds box is not modelled (no claim
reads it). -/
def constructSeasonGo (phaseOf seasonOf : ℤ → ℤ) (target : ℤ) :
    ℕ → DayRec → List DayRec
  | 0, _ => []
  | n + 1, cur =>
    if cur.seas ≠ target then []
    else
      (nextDay phaseOf seasonOf cur).1
        :: constructSeasonGo phaseOf seasonOf target n (nextDay phaseOf seasonOf cur).2

/-- constructSeason of app.js: classify the first day of the season of the
anchor date, place it at the origin, and walk the season. -/
def constructSeason (phaseOf seasonOf : ℤ → ℤ) (date : ℤ) : List DayRec :=
  let first := classify phaseOf seasonOf (findFirstInSeason seasonOf date)
  constructSeasonGo phaseOf seasonOf first.seas 200 first

/-- The relation that actually holds between adjacent records of a season
layout (claim C1 amended): a same-row step keeps the quarter, leaves y
unchanged, adds 0.5 to x, and leaves both boundary flags of the pair clear;
a row break changes the quarter, adds 0.5 to y, subtracts 19/6 from x, and
sets both isPhaseEnd of the first and isPhaseStart of the second. -/
def Adjacent (d d' : DayRec) : Prop :=
  (d'.phase = d.phase ∧ d'.y = d.y ∧ d'.x = d.x + 0.5
      ∧ d.isPhaseEnd = false ∧ d'.isPhaseStart = false)
    ∨ (d'.phase ≠ d.phase ∧ d'.y = d.y + 0.5 ∧ d'.x = d.x - 19/6
      ∧ d.isPhaseEnd = true ∧ d'.isPhaseStart = true)

/-- The adjacency relation exactly as claim C1 words it: on a row break
exactly one of isPhaseEnd of the first and isPhaseStart of the second is
set. -/
def AdjacentClaimed (d d' : DayRec) : Prop :=
  (d'.y = d.y ∧ d'.x = d.x + 0.5)
    ∨ (d'.y = d.y + 0.5 ∧ d'.x = d.x - 19/6 ∧ d.isPhaseEnd ≠ d'.isPhaseStart)

theorem constructSeasonGo_succ (phaseOf seasonOf : ℤ → ℤ) (target : ℤ) (n : ℕ)
    (cur : DayRec) :
    constructSeasonGo phaseOf seasonOf target (n + 1) cur
      = if cur.seas ≠ target then []
        else (nextDay phaseOf seasonOf cur).1
          :: constructSeasonGo phaseOf seasonOf target n (nextDay phaseOf seasonOf cur).2 :=
  rfl

theorem findFirstGo_succ (seasonOf : ℤ → ℤ) (target d0 : ℤ) (n : ℕ) (d : ℤ) :
    findFirstGo seasonOf target d0 (n + 1) d
      = if seasonOf (d - 1) ≠ target then (d - 1) + 1
        else findFirstGo seasonOf target d0 n (d - 1) :=
  rfl

/-! ## C1: the tiling of a season layout -/

theorem nextDay_fst_fields (phaseOf seasonOf : ℤ → ℤ) (cur : DayRec) :
    (nextDay phaseOf seasonOf cur).1 = cur
      ∨ (nextDay phaseOf seasonOf cur).1 = { cur with isPhaseEnd := true } := by
  unfold nextDay
  by_cases h : (classify phaseOf seasonOf (cur.day + 1)).phase = cur.phase
  · left
    simp [h]
  · right
    simp [h]

theorem nextDay_snd_no_end (phaseOf seasonOf : ℤ → ℤ) (cur : DayRec) :
    (nextDay phaseOf seasonOf cur).2.isPhaseEnd = false := by
  unfold nextDay classify
  by_cases h : phaseOf (cur.day + 1) = cur.phase
  · simp [h]
  · simp [h]

theorem nextDay_adjacent (phaseOf seasonOf : ℤ → ℤ) (cur : DayRec)
    (hcur : cur.isPhaseEnd = false) :
    Adjacent (nextDay phaseOf seasonOf cur).1 (nextDay phaseOf seasonOf cur).2 := by
  unfold nextDay
  by_cases h : (classify phaseOf seasonOf (cur.day + 1)).phase = cur.phase
  · rw [if_pos h]
    left
    exact ⟨h, rfl, rfl, hcur, rfl⟩
  · rw [if_neg h]
    right
    exact ⟨h, rfl, rfl, rfl, rfl⟩

theorem go_head_fields (phaseOf seasonOf : ℤ → ℤ) (target : ℤ) :
    ∀ (n : ℕ) (cur h : DayRec),
      (constructSeasonGo phaseOf seasonOf target n cur).head? = some h →
        h.x = cur.x ∧ h.y = cur.y ∧ h.phase = cur.phase
          ∧ h.isPhaseStart = cur.isPhaseStart := by
  intro n cur h hh
  cases n with
  | zero => simp [constructSeasonGo] at hh
  | succ n =>
    rw [constructSeasonGo_succ] at hh
    by_cases hs : cur.seas ≠ target
    · rw [if_pos hs] at hh
      simp at hh
    · rw [if_neg hs] at hh
      simp only [List.head?_cons, Option.some.injEq] at hh
      subst hh
      rcases nextDay_fst_fields phaseOf seasonOf cur with he | he <;> rw [he] <;>
        exact ⟨rfl, rfl, rfl, rfl⟩

theorem go_chain (phaseOf seasonOf : ℤ → ℤ) (target : ℤ) :
    ∀ (n : ℕ) (cur : DayRec), cur.isPhaseEnd = false →
      List.Chain' Adjacent (constructSeasonGo phaseOf seasonOf target n cur) := by
  intro n
  induction n with
  | zero =>
    intro cur _
    simp [constructSeasonGo]
  | succ n ih =>
    intro cur hcur
    rw [constructSeasonGo_succ]
    by_cases hs : cur.seas ≠ target
    · rw [if_pos hs]
      exact List.chain'_nil
    · rw [if_neg hs]
      rw [List.chain'_cons']
      constructor
      · intro y hy
        have hf := go_head_fields phaseOf seasonOf target n _ y (Option.mem_def.mp hy)
        have hadj := nextDay_adjacent phaseOf seasonOf cur hcur
        rcases hadj with ⟨hp, hyy, hx, he, hst⟩ | ⟨hp, hyy, hx, he, hst⟩
        · left
          rw [hf.1, hf.2.1, hf.2.2.1, hf.2.2.2]
          exact ⟨hp, hyy, hx, he, hst⟩
        · right
          rw [hf.1, hf.2.1, hf.2.2.1, hf.2.2.2]
          exact ⟨hp, hyy, hx, he, hst⟩
      · exact ih _ (nextDay_snd_no_end phaseOf seasonOf cur)

/-- C1 amended: in every layout constructSeason produces (for any end-of-day
classifier maps), each adjacent pair of records either keeps the quarter and
steps right by exactly 0.5 on the same row with neither boundary flag set on
the pair, or changes the quarter, drops by 0.5 and moves left by exactly
19/6, with both isPhaseEnd of the first and isPhaseStart of the second set
(not exactly one, as the claim words it). -/
theorem c1_layout_tiling :
    ∀ (phaseOf seasonOf : ℤ → ℤ) (date : ℤ),
      List.Chain' Adjacent (constructSeason phaseOf seasonOf date) := by
  intro phaseOf seasonOf date
  exact go_chain phaseOf seasonOf _ 200 _ rfl

/-- Quarter map for the C1 counterexample: quarter 0 on day 0 and earlier,
quarter 1 afterwards (one row break between day 0 and day 1). -/
def c1Phase (d : ℤ) : ℤ := if d ≤ 0 then 0 else 1

/-- Season map for the C1 counterexample: season 0 exactly on days 0 and 1,
so the layout walk covers precisely those two days. -/
def c1Seas (d : ℤ) : ℤ := if 0 ≤ d ∧ d < 2 then 0 else 1

/-- C1 counterexample: the two-day layout built from c1Phase and c1Seas has a
row break between its two records, and the code sets both isPhaseEnd of day
0 and isPhaseStart of day 1, so the claimed exactly-one-flag adjacency fails
on this concrete layout. -/
theorem c1_counterexample :
    ¬ List.Chain' AdjacentClaimed (constructSeason c1Phase c1Seas 1) := by
  intro hchain
  unfold constructSeason at hchain
  rw [show findFirstInSeason c1Seas 1 = 0 from by decide] at hchain
  have hF : nextDay c1Phase c1Seas (classify c1Phase c1Seas 0)
      = (⟨0, 0, 0, 0, 0, false, true⟩,
         ⟨1, 0, 1, 0 - 19/6, 0 + 0.5, true, false⟩) := by
    unfold nextDay classify c1Phase c1Seas
    norm_num
  rw [show (200 : ℕ) = 199 + 1 from rfl, constructSeasonGo_succ] at hchain
  rw [if_neg (by simp)] at hchain
  rw [hF] at hchain
  rw [show (199 : ℕ) = 198 + 1 from rfl, constructSeasonGo_succ] at hchain
  rw [if_neg (by norm_num [classify, c1Seas] : ¬ (⟨1, 0, 1, 0 - 19/6, 0 + 0.5, true, false⟩
    : DayRec).seas ≠ (classify c1Phase c1Seas 0).seas)] at hchain
  have hG : (nextDay c1Phase c1Seas (⟨1, 0, 1, 0 - 19/6, 0 + 0.5, true, false⟩ : DayRec)).1
      = (⟨1, 0, 1, 0 - 19/6, 0 + 0.5, true, false⟩ : DayRec) := by
    unfold nextDay classify c1Phase
    norm_num
  rw [hG, List.chain'_cons] at hchain
  have hadj := hchain.1
  unfold AdjacentClaimed at hadj
  rcases hadj with ⟨hy, _⟩ | ⟨_, _, hne⟩
  · norm_num at hy
  · exact hne rfl

/-! ## C4: the safety caps fall back and truncate silently -/

theorem findFirstGo_no_boundary (seasonOf : ℤ → ℤ) (t d0 : ℤ) :
    ∀ (n : ℕ) (d : ℤ), (∀ j : ℕ, j < n → seasonOf (d - 1 - j) = t) →
      findFirstGo seasonOf t d0 n d = d0 := by
  intro n
  induction n with
  | zero =>
    intro d _
    rfl
  | succ n ih =>
    intro d hall
    have h0 : seasonOf (d - 1) = t := by
      have := hall 0 (Nat.succ_pos n)
      simpa using this
    rw [findFirstGo_succ, if_neg (by simp [h0])]
    apply ih
    intro j hj
    have hstep := hall (j + 1) (by omega)
    have harg : d - 1 - ((j : ℤ) + 1) = d - 1 - 1 - (j : ℤ) := by ring
    push_cast at hstep
    rw [harg] at hstep
    exact hstep

theorem constructSeasonGo_length_le (phaseOf seasonOf : ℤ → ℤ) (target : ℤ) :
    ∀ (n : ℕ) (cur : DayRec),
      (constructSeasonGo phaseOf seasonOf target n cur).length ≤ n := by
  intro n
  induction n with
  | zero =>
    intro cur
    simp [constructSeasonGo]
  | succ n ih =>
    intro cur
    rw [constructSeasonGo_succ]
    by_cases h : cur.seas ≠ target
    · rw [if_pos h]
      simp
    · rw [if_neg h]
      simpa using Nat.succ_le_succ (ih _)

/-- C4 amended: when the 200-iteration cap of findFirstInSeason is exhausted
without the season ever differing, the function silently returns the anchor
date itself (the fallback path), and the walk of constructSeason never
produces more than 200 records (silent truncation); no error of any kind is
raised, the embedded functions being total. -/
theorem c4_cap_fallback_truncation :
    ∀ (seasonOf : ℤ → ℤ) (date : ℤ),
      ((∀ j : ℕ, j < 200 → seasonOf (date - 1 - j) = seasonOf date) →
          findFirstInSeason seasonOf date = date)
        ∧ ∀ phaseOf : ℤ → ℤ,
            (constructSeason phaseOf seasonOf date).length ≤ 200 := by
  intro seasonOf date
  constructor
  · intro h
    exact findFirstGo_no_boundary seasonOf _ date 200 date h
  · intro phaseOf
    exact constructSeasonGo_length_le phaseOf seasonOf _ 200 _

/-- C4 witness: the amended behaviour at the constant-season environment
(no boundary exists at all): the anchor comes back and the walk stays within
200 records. -/
theorem c4_cap_fallback_truncation_witness :
    findFirstInSeason (fun _ => (0 : ℤ)) 0 = 0
      ∧ (constructSeason (fun _ => (0 : ℤ)) (fun _ => (0 : ℤ)) 0).length ≤ 200 :=
  ⟨(c4_cap_fallback_truncation (fun _ => 0) 0).1 (fun _ _ => rfl),
   (c4_cap_fallback_truncation (fun _ => 0) 0).2 (fun _ => 0)⟩

theorem constructSeasonGo_length_const :
    ∀ (n : ℕ) (cur : DayRec), cur.seas = 0 →
      (constructSeasonGo (fun _ => 0) (fun _ => 0) 0 n cur).length = n := by
  intro n
  induction n with
  | zero =>
    intro cur _
    rfl
  | succ n ih =>
    intro cur hcur
    rw [constructSeasonGo_succ, if_neg (by simp [hcur])]
    have hsnd : (nextDay (fun _ => 0) (fun _ => 0) cur).2.seas = 0 := by
      unfold nextDay classify
      by_cases h : (0 : ℤ) = cur.phase
      · simp [h]
      · simp [h]
    simp [ih _ hsnd]

/-- C4 counterexample: with a classifier whose season never changes (the
no-boundary situation the claim is about), findFirstInSeason returns the
anchor date as a silent fallback and constructSeason returns a list
truncated at exactly 200 records; no LayoutInvariantError exists or is
raised. -/
theorem c4_counterexample :
    findFirstInSeason (fun _ => (0 : ℤ)) 0 = 0
      ∧ (constructSeason (fun _ => (0 : ℤ)) (fun _ => (0 : ℤ)) 0).length = 200 := by
  constructor
  · exact findFirstGo_no_boundary (fun _ => 0) 0 0 200 0 (fun _ _ => rfl)
  · exact constructSeasonGo_length_const 200 _ rfl
